import Mathlib

/-!
Shallow embedding of the doublet score calibration and decision engine of
`solo/solo.py` (function `main`, lines 237-298), over the real numbers.

The calibration loop (lines 254-270) is a `while` loop with no guaranteed
termination, so it is embedded fuel-based: `calibLoop` returns `none` when
the fuel runs out before the loop guard fails, and `some (scores, counter)`
when the loop exits normally.  The threshold selector (lines 277-288) is
embedded as `selectCalls`, with an `Except` distinguishing the two abort
paths of the source (`assert k > 0` and the out-of-bounds check of
`np.argpartition`).
-/

namespace Solo

noncomputable section

open Classical

/-- Population mean `np.mean(l)` of a list of scores, over `ℝ`. -/
def mean (l : List ℝ) : ℝ := l.sum / l.length

/-- Line 266: the sigmoid `1 / (1 + np.exp(-x))` applied per cell. -/
def sigmoid (x : ℝ) : ℝ := 1 / (1 + Real.exp (-x))

/-- Line 258: target prevalence `d_s = doublet_ratio / (doublet_ratio + 1)`. -/
def d_s (ratio : ℝ) : ℝ := ratio / (ratio + 1)

/-- Lines 261-266: one pass of the calibration loop body.  `d_o` is the mean
of the current working scores, `c` the log-odds bias
`np.log(d_o/(1-d_o)) - np.log(ds/(1-ds))` (the source applies `np.log`
directly to `d_o`, with no clamp), and the new working scores are
`1/(1+np.exp(-(logit_scores + c)))` elementwise over the logit slice. -/
def calibStep (logit_scores : List ℝ) (ds : ℝ) (solo_scores : List ℝ) : List ℝ :=
  logit_scores.map fun L =>
    sigmoid (L + (Real.log (mean solo_scores / (1 - mean solo_scores)) -
      Real.log (ds / (1 - ds))))

/-- The loop guard component `diff > .01`; the initial `diff = np.inf`
(line 254) is represented by `none`, for which the comparison holds. -/
def diffGt : Option ℝ → Prop
  | none => True
  | some d => d > 0.01

/-- Lines 259-270: the calibration `while` loop,
`while (diff > .01) | (counter_update < 5)`, with explicit fuel.
State: current working scores, current `diff` (`none` = `np.inf`), and
`counter_update`.  Returns `some (final_scores, final_counter)` when the
guard fails, `none` when the fuel is exhausted first. -/
def calibLoop (logit_scores : List ℝ) (ds : ℝ) :
    ℕ → List ℝ → Option ℝ → ℕ → Option (List ℝ × ℕ)
  | 0, _, _, _ => none
  | fuel + 1, solo_scores, diff, counter =>
    if diffGt diff ∨ counter < 5 then
      let next := calibStep logit_scores ds solo_scores
      calibLoop logit_scores ds fuel next
        (some |mean solo_scores - mean next|) (counter + 1)
    else
      some (solo_scores, counter)

/-- The calibration engine run from its initial state (lines 254-255):
`diff = np.inf`, `counter_update = 0`, working scores = initial scores. -/
def calibrate (logit_scores init : List ℝ) (ds : ℝ) (fuel : ℕ) :
    Option (List ℝ × ℕ) :=
  calibLoop logit_scores ds fuel init none 0

/-- Working scores after `k` passes of the loop body. -/
def iterStep (logit_scores : List ℝ) (ds : ℝ) (init : List ℝ) (k : ℕ) : List ℝ :=
  (calibStep logit_scores ds)^[k] init

/-- The `diff` variable held at the loop head when `counter_update = k`. -/
def diffAt (logit_scores : List ℝ) (ds : ℝ) (init : List ℝ) : ℕ → Option ℝ
  | 0 => none
  | k + 1 => some |mean (iterStep logit_scores ds init k) -
      mean (iterStep logit_scores ds init (k + 1))|

/-- Float-semantics view of `np.log(p / (1 - p))` as applied at line 263:
the result is a finite real (`some`) exactly when `0 < p < 1`; for
`p ≤ 0` or `p ≥ 1` the float computation yields `-inf`, `inf` or `nan`
(`none`).  The source applies this to the raw observed mean `d_o`
without any clamp. -/
def logOddsF (p : ℝ) : Option ℝ :=
  if 0 < p ∧ p < 1 then some (Real.log (p / (1 - p))) else none

/-- The bias `c` of line 263 under float-finiteness tracking:
`c = np.log(d_o/(1-d_o)) - np.log(ds/(1-ds))`, finite only when both
log-odds are finite. -/
def biasF (dO dS : ℝ) : Option ℝ :=
  (logOddsF dO).bind fun a => (logOddsF dS).map fun b => a - b

/-- Line 237-238: `softmax(logit_predictions, axis=1)[:, 0]` for one row,
the component the source stores as `doublet_score`. -/
def softmaxRow0 (l : ℝ × ℝ) : ℝ := Real.exp l.1 / (Real.exp l.1 + Real.exp l.2)

/-- The other softmax component of the same row, `softmax(...)[:, 1]`:
the softmax weight of the class whose raw logit
(`logit_predictions[:, 1]`, line 244) is used inside the calibration
update. -/
def softmaxRow1 (l : ℝ × ℝ) : ℝ := Real.exp l.2 / (Real.exp l.1 + Real.exp l.2)

/-- The two abort paths of the threshold selector for a supplied
expected number of doublets: the `assert k > 0` at line 283, and the
bounds requirement `kth ≤ n - 1` of `np.argpartition(solo_scores, k)`
at line 284 (NumPy raises for `kth` outside `[-n, n-1]`). -/
inductive ThreshErr
  | assertFail
  | argpartitionOOB
deriving DecidableEq

/-- Lines 277-286: threshold selection for a supplied
`expected_number_of_doublets`.  `k = len(solo_scores) - expected`;
`assert k > 0`; `np.argpartition(solo_scores, k)` requires `k ≤ n - 1`;
its first `k` positions hold the `k` smallest scores, so
`threshold = np.max(solo_scores[idx[:k]])` is the maximum of the `k`
smallest scores; `is_solo_doublet = solo_scores > threshold`. -/
def selectCalls (solo_scores : List ℝ) (expected : ℕ) :
    Except ThreshErr (ℝ × List Bool) :=
  let n := solo_scores.length
  let k : ℤ := (n : ℤ) - (expected : ℤ)
  if 0 < k then
    if k ≤ (n : ℤ) - 1 then
      let sorted := solo_scores.insertionSort (· ≤ ·)
      let threshold := ((sorted.take k.toNat).maximum).unbot' 0
      Except.ok (threshold, solo_scores.map fun s => decide (threshold < s))
    else Except.error ThreshErr.argpartitionOOB
  else Except.error ThreshErr.assertFail

/-- Lines 237-293 glue (default-threshold path, `-e` absent): softmax
scores and doublet-class... logit slice to the first `num_cells` entries
(lines 256-257), calibration with `d_s = ratio/(ratio+1)` (line 258),
then `is_solo_doublet = solo_scores > .5` (line 288).  The source then
slices this call array as `is_solo_doublet[:num_cells]` (line 290) and
`is_solo_doublet[num_cells:]` (line 293). -/
def soloCalls (logit_predictions : List (ℝ × ℝ)) (num_cells : ℕ) (ratio : ℝ)
    (fuel : ℕ) : Option (List Bool) :=
  let doublet_score := logit_predictions.map softmaxRow0
  let logit_doublet_score := logit_predictions.map Prod.snd
  let solo_scores := doublet_score.take num_cells
  let logit_scores := logit_doublet_score.take num_cells
  (calibrate logit_scores solo_scores (d_s ratio) fuel).map fun p =>
    p.1.map fun s => decide ((1 / 2 : ℝ) < s)

end

/-! ## Basic lemmas about the numeric primitives -/

theorem sigmoid_pos (x : ℝ) : 0 < sigmoid x := by
  unfold sigmoid
  positivity

theorem one_add_exp_pos (x : ℝ) : 0 < 1 + Real.exp x := by positivity

theorem sigmoid_lt_one (x : ℝ) : sigmoid x < 1 := by
  unfold sigmoid
  rw [div_lt_one (one_add_exp_pos _)]
  linarith [Real.exp_pos (-x)]

theorem sigmoid_lt_sigmoid {x y : ℝ} (h : x < y) : sigmoid x < sigmoid y := by
  unfold sigmoid
  have hy : 0 < 1 + Real.exp (-y) := one_add_exp_pos _
  have hexp : Real.exp (-y) < Real.exp (-x) := Real.exp_lt_exp.mpr (by linarith)
  exact one_div_lt_one_div_of_lt hy (by linarith)

theorem sigmoid_zero : sigmoid 0 = 1 / 2 := by
  unfold sigmoid
  rw [neg_zero, Real.exp_zero]
  norm_num

theorem sigmoid_add_neg (x : ℝ) : sigmoid x + sigmoid (-x) = 1 := by
  unfold sigmoid
  rw [neg_neg, Real.exp_neg]
  have h := Real.exp_pos x
  field_simp
  ring

theorem one_sub_sigmoid (x : ℝ) : 1 - sigmoid x = Real.exp (-x) / (1 + Real.exp (-x)) := by
  unfold sigmoid
  have h := one_add_exp_pos (-x)
  field_simp

theorem logit_sigmoid (x : ℝ) : Real.log (sigmoid x / (1 - sigmoid x)) = x := by
  have h1 : sigmoid x / (1 - sigmoid x) = Real.exp x := by
    rw [one_sub_sigmoid]
    unfold sigmoid
    have h := one_add_exp_pos (-x)
    have he := Real.exp_pos (-x)
    rw [show Real.exp x = (Real.exp (-x))⁻¹ by rw [Real.exp_neg, inv_inv]]
    field_simp
  rw [h1, Real.log_exp]

theorem mean_single (a : ℝ) : mean [a] = a := by
  simp [mean]

theorem mean_pair (a b : ℝ) : mean [a, b] = (a + b) / 2 := by
  simp [mean]

theorem mean_sigmoid_pair (x : ℝ) : mean [sigmoid x, sigmoid (-x)] = 1 / 2 := by
  rw [mean_pair, sigmoid_add_neg]

theorem log_half_div_half : Real.log ((1 / 2 : ℝ) / (1 - 1 / 2)) = 0 := by
  norm_num

/-! ## Unfolding lemmas for the calibration loop -/

theorem calibLoop_continue (l : List ℝ) (ds : ℝ) (f : ℕ) (sc : List ℝ)
    (df : Option ℝ) (c : ℕ) (h : diffGt df ∨ c < 5) :
    calibLoop l ds (f + 1) sc df c =
      calibLoop l ds f (calibStep l ds sc)
        (some |mean sc - mean (calibStep l ds sc)|) (c + 1) := by
  rw [calibLoop]
  exact if_pos h

theorem calibLoop_exit (l : List ℝ) (ds : ℝ) (f : ℕ) (sc : List ℝ)
    (df : Option ℝ) (c : ℕ) (h : ¬(diffGt df ∨ c < 5)) :
    calibLoop l ds (f + 1) sc df c = some (sc, c) := by
  rw [calibLoop]
  exact if_neg h

theorem iterStep_succ (l : List ℝ) (ds : ℝ) (init : List ℝ) (k : ℕ) :
    iterStep l ds init (k + 1) = calibStep l ds (iterStep l ds init k) := by
  unfold iterStep
  exact Function.iterate_succ_apply' _ _ _

/-- Characterization of a normally exiting run of the calibration loop,
relative to the iterates of the loop body: starting at loop head with
`counter = c`, scores `iterStep c` and diff `diffAt c`, a `some` result
means the loop exited at some counter `n ≥ max c 5` with scores
`iterStep n`, its guard failing at `n` and holding at every intermediate
loop head. -/
theorem calibLoop_spec (l : List ℝ) (ds : ℝ) (init : List ℝ) :
    ∀ (fuel c : ℕ) (s : List ℝ) (n : ℕ),
      calibLoop l ds fuel (iterStep l ds init c) (diffAt l ds init c) c =
        some (s, n) →
      c ≤ n ∧ 5 ≤ n ∧ n - c < fuel ∧ s = iterStep l ds init n ∧
        ¬ diffGt (diffAt l ds init n) ∧
        ∀ k, c ≤ k → k < n → diffGt (diffAt l ds init k) ∨ k < 5 := by
  intro fuel
  induction fuel with
  | zero =>
    intro c s n h
    rw [calibLoop] at h
    exact absurd h (by simp)
  | succ f ih =>
    intro c s n h
    by_cases hg : diffGt (diffAt l ds init c) ∨ c < 5
    · rw [calibLoop_continue l ds f _ _ c hg] at h
      rw [← iterStep_succ l ds init c] at h
      have hdf : (some |mean (iterStep l ds init c) -
          mean (iterStep l ds init (c + 1))|) = diffAt l ds init (c + 1) := rfl
      rw [hdf] at h
      obtain ⟨h1, h2, h3, h4, h5, h6⟩ := ih (c + 1) s n h
      refine ⟨by omega, h2, by omega, h4, h5, ?_⟩
      intro k hk1 hk2
      rcases Nat.eq_or_lt_of_le hk1 with hk | hk
      · exact hk ▸ hg
      · exact h6 k hk hk2
    · rw [calibLoop_exit l ds f _ _ c hg] at h
      have hs : iterStep l ds init c = s ∧ c = n := by
        have := Option.some.inj h
        exact ⟨congrArg Prod.fst this, congrArg Prod.snd this⟩
      obtain ⟨hs1, hs2⟩ := hs
      push_neg at hg
      refine ⟨by omega, by omega, by omega, by rw [← hs1, hs2], ?_, ?_⟩
      · rw [← hs2]; exact hg.1
      · intro k hk1 hk2; omega

/-- Characterization of a normally exiting run of `calibrate`: the exit
counter `n` is at least 5 and below the fuel, the returned scores are the
`n`-th iterate of the loop body, the last recorded `diff` is at most the
tolerance, and at every loop head between the 5th and the exit the
recorded `diff` exceeded the tolerance. -/
theorem calibrate_spec (l init : List ℝ) (ds : ℝ) (fuel : ℕ) (s : List ℝ)
    (n : ℕ) (h : calibrate l init ds fuel = some (s, n)) :
    5 ≤ n ∧ n < fuel ∧ s = iterStep l ds init n ∧
      |mean (iterStep l ds init (n - 1)) - mean (iterStep l ds init n)| ≤ 0.01 ∧
      ∀ k, 5 ≤ k → k < n →
        0.01 < |mean (iterStep l ds init (k - 1)) - mean (iterStep l ds init k)| := by
  have h0 : iterStep l ds init 0 = init := rfl
  have hd0 : diffAt l ds init 0 = none := rfl
  have := calibLoop_spec l ds init fuel 0 s n (by rw [h0, hd0]; exact h)
  obtain ⟨-, h2, h3, h4, h5, h6⟩ := this
  refine ⟨h2, by omega, h4, ?_, ?_⟩
  · obtain ⟨m, rfl⟩ : ∃ m, n = m + 1 := ⟨n - 1, by omega⟩
    have : diffAt l ds init (m + 1) = some |mean (iterStep l ds init m) -
        mean (iterStep l ds init (m + 1))| := rfl
    rw [this] at h5
    simpa [diffGt, Nat.add_sub_cancel] using le_of_not_lt h5
  · intro k hk5 hkn
    have hg := (h6 k (by omega) hkn).resolve_right (by omega)
    obtain ⟨m, rfl⟩ : ∃ m, k = m + 1 := ⟨k - 1, by omega⟩
    have : diffAt l ds init (m + 1) = some |mean (iterStep l ds init m) -
        mean (iterStep l ds init (m + 1))| := rfl
    rw [this] at hg
    simpa [diffGt, Nat.add_sub_cancel] using hg

/-! ## Concrete evaluations of the loop body -/

theorem stepSingle0 (L : ℝ) : calibStep [L] (1 / 2) [(1 : ℝ) / 2] = [sigmoid L] := by
  unfold calibStep
  rw [mean_single, log_half_div_half]
  simp

theorem stepSingle (L t : ℝ) :
    calibStep [L] (1 / 2) [sigmoid t] = [sigmoid (L + t)] := by
  unfold calibStep
  rw [mean_single, logit_sigmoid, log_half_div_half]
  simp

theorem stepSym0 :
    calibStep [1, -1] (1 / 2) [(1 : ℝ) / 2, 1 / 2] = [sigmoid 1, sigmoid (-1)] := by
  unfold calibStep
  rw [mean_pair, show ((1 : ℝ) / 2 + 1 / 2) / 2 = 1 / 2 by norm_num,
    log_half_div_half]
  simp

theorem stepSym :
    calibStep [1, -1] (1 / 2) [sigmoid 1, sigmoid (-1)] =
      [sigmoid 1, sigmoid (-1)] := by
  unfold calibStep
  rw [mean_sigmoid_pair, log_half_div_half]
  simp

theorem stepZero : calibStep [0] (1 / 2) [(1 : ℝ) / 2] = [(1 : ℝ) / 2] := by
  rw [stepSingle0, sigmoid_zero]

/-- A symmetric two-cell run: logits `[1, -1]`, target prevalence `1/2`,
initial scores `[1/2, 1/2]`.  Every pass recomputes the same scores, the
recorded `diff` is `0` from the first pass on, and the loop still runs
its five mandatory passes before exiting. -/
theorem runSym : calibrate [1, -1] [(1 : ℝ) / 2, 1 / 2] (1 / 2) 6 =
    some ([sigmoid 1, sigmoid (-1)], 5) := by
  unfold calibrate
  rw [show (6 : ℕ) = 5 + 1 from rfl,
    calibLoop_continue _ _ _ _ _ _ (Or.inr (by norm_num)), stepSym0]
  rw [show (5 : ℕ) = 4 + 1 from rfl,
    calibLoop_continue _ _ _ _ _ _ (Or.inr (by norm_num)), stepSym]
  rw [show (4 : ℕ) = 3 + 1 from rfl,
    calibLoop_continue _ _ _ _ _ _ (Or.inr (by norm_num)), stepSym]
  rw [show (3 : ℕ) = 2 + 1 from rfl,
    calibLoop_continue _ _ _ _ _ _ (Or.inr (by norm_num)), stepSym]
  rw [show (2 : ℕ) = 1 + 1 from rfl,
    calibLoop_continue _ _ _ _ _ _ (Or.inr (by norm_num)), stepSym]
  rw [show (1 : ℕ) = 0 + 1 from rfl, calibLoop_exit]
  rintro (hd | hc)
  · rw [diffGt, sub_self, abs_zero] at hd
    norm_num at hd
  · omega

/-- A degenerate single-cell run: logit `[0]`, target prevalence `1/2`,
initial score `[1/2]`: the loop body fixes the state and the loop exits
after its five mandatory passes with scores `[1/2]`. -/
theorem runZero : calibrate [0] [(1 : ℝ) / 2] (1 / 2) 6 =
    some ([(1 : ℝ) / 2], 5) := by
  unfold calibrate
  rw [show (6 : ℕ) = 5 + 1 from rfl,
    calibLoop_continue _ _ _ _ _ _ (Or.inr (by norm_num)), stepZero]
  rw [show (5 : ℕ) = 4 + 1 from rfl,
    calibLoop_continue _ _ _ _ _ _ (Or.inr (by norm_num)), stepZero]
  rw [show (4 : ℕ) = 3 + 1 from rfl,
    calibLoop_continue _ _ _ _ _ _ (Or.inr (by norm_num)), stepZero]
  rw [show (3 : ℕ) = 2 + 1 from rfl,
    calibLoop_continue _ _ _ _ _ _ (Or.inr (by norm_num)), stepZero]
  rw [show (2 : ℕ) = 1 + 1 from rfl,
    calibLoop_continue _ _ _ _ _ _ (Or.inr (by norm_num)), stepZero]
  rw [show (1 : ℕ) = 0 + 1 from rfl, calibLoop_exit]
  rintro (hd | hc)
  · rw [diffGt, sub_self, abs_zero] at hd
    norm_num at hd
  · omega

theorem exp_forty_big : (441 : ℝ) ≤ Real.exp 40 := by
  have h := Real.add_one_le_exp (20 : ℝ)
  have hpos : (0 : ℝ) < Real.exp 20 := Real.exp_pos _
  calc (441 : ℝ) = 21 * 21 := by norm_num
    _ ≤ Real.exp 20 * Real.exp 20 := by nlinarith
    _ = Real.exp 40 := by rw [← Real.exp_add]; norm_num

theorem sig_diff_small : |mean [sigmoid 40] - mean [sigmoid 50]| ≤ 0.01 := by
  rw [mean_single, mean_single]
  have h1 : sigmoid 40 < sigmoid 50 := sigmoid_lt_sigmoid (by norm_num)
  have h2 : sigmoid 50 < 1 := sigmoid_lt_one _
  have hexp : Real.exp (-40) ≤ (441 : ℝ)⁻¹ := by
    rw [Real.exp_neg]
    exact inv_anti₀ (by norm_num) exp_forty_big
  have h3 : 1 - sigmoid 40 ≤ Real.exp (-40) := by
    rw [one_sub_sigmoid]
    exact div_le_self (Real.exp_pos _).le (by linarith [Real.exp_pos (-(40 : ℝ))])
  rw [abs_sub_comm, abs_of_nonneg (by linarith)]
  norm_num at hexp ⊢
  linarith

theorem sigmoid_fifty_big : (51 : ℝ) / 52 ≤ sigmoid 50 := by
  have h50 : (51 : ℝ) ≤ Real.exp 50 := by
    have := Real.add_one_le_exp (50 : ℝ)
    linarith
  have hexp : Real.exp (-50) ≤ (51 : ℝ)⁻¹ := by
    rw [Real.exp_neg]
    exact inv_anti₀ (by norm_num) h50
  have hpos : (0 : ℝ) < 1 + Real.exp (-50) := one_add_exp_pos _
  unfold sigmoid
  rw [show (51 : ℝ) / 52 = 1 / (52 / 51) by norm_num]
  apply one_div_le_one_div_of_le hpos
  rw [show (52 : ℝ) / 51 = 1 + (51 : ℝ)⁻¹ by norm_num]
  linarith

/-- A diverging single-cell run: logit `[10]`, target prevalence `1/2`,
initial score `[1/2]`.  Each pass composes the bias with the previous
one, driving the score to `sigmoid (10 k)`; the successive means get
ever closer (the sigmoid saturates), so the loop exits after its five
mandatory passes even though the mean is nowhere near the target. -/
theorem runDiv : calibrate [10] [(1 : ℝ) / 2] (1 / 2) 6 =
    some ([sigmoid 50], 5) := by
  have e1 : calibStep [10] (1 / 2) [sigmoid 10] = [sigmoid 20] := by
    rw [stepSingle]; norm_num
  have e2 : calibStep [10] (1 / 2) [sigmoid 20] = [sigmoid 30] := by
    rw [stepSingle]; norm_num
  have e3 : calibStep [10] (1 / 2) [sigmoid 30] = [sigmoid 40] := by
    rw [stepSingle]; norm_num
  have e4 : calibStep [10] (1 / 2) [sigmoid 40] = [sigmoid 50] := by
    rw [stepSingle]; norm_num
  unfold calibrate
  rw [show (6 : ℕ) = 5 + 1 from rfl,
    calibLoop_continue _ _ _ _ _ _ (Or.inr (by norm_num)), stepSingle0]
  rw [show (5 : ℕ) = 4 + 1 from rfl,
    calibLoop_continue _ _ _ _ _ _ (Or.inr (by norm_num)), e1]
  rw [show (4 : ℕ) = 3 + 1 from rfl,
    calibLoop_continue _ _ _ _ _ _ (Or.inr (by norm_num)), e2]
  rw [show (3 : ℕ) = 2 + 1 from rfl,
    calibLoop_continue _ _ _ _ _ _ (Or.inr (by norm_num)), e3]
  rw [show (2 : ℕ) = 1 + 1 from rfl,
    calibLoop_continue _ _ _ _ _ _ (Or.inr (by norm_num)), e4]
  rw [show (1 : ℕ) = 0 + 1 from rfl, calibLoop_exit]
  rintro (hd | hc)
  · rw [diffGt] at hd
    exact absurd hd (not_lt.mpr sig_diff_small)
  · omega

/-! ## Claim theorems: calibration engine -/

/-- Claim C2: the calibration loop runs at least `min_iterations = 5` full
passes for every input (no run can exit with fewer than 6 fuel units, and
any exit counter is at least 5), and beyond the 5th pass it runs another
pass exactly when the last recorded delta (the absolute difference of the
successive means) exceeds the tolerance `0.01`: every loop head strictly
between pass 5 and the exit saw a delta above tolerance, and the exit saw
a delta at most the tolerance. -/
theorem c2_loop_structure (l init : List ℝ) (ds : ℝ) (fuel : ℕ) (s : List ℝ)
    (n : ℕ) (h : calibrate l init ds fuel = some (s, n)) :
    5 ≤ n ∧ (∀ f, f ≤ 5 → calibrate l init ds f = none) ∧
      (∀ k, 5 ≤ k → k < n →
        0.01 < |mean (iterStep l ds init (k - 1)) - mean (iterStep l ds init k)|) ∧
      |mean (iterStep l ds init (n - 1)) - mean (iterStep l ds init n)| ≤ 0.01 := by
  obtain ⟨h5, hf, hs, hlast, hmid⟩ := calibrate_spec l init ds fuel s n h
  refine ⟨h5, ?_, hmid, hlast⟩
  intro f hf5
  cases hr : calibrate l init ds f with
  | none => rfl
  | some p =>
    obtain ⟨ps, pn⟩ := p
    obtain ⟨h5p, hfp, -, -, -⟩ := calibrate_spec l init ds f ps pn hr
    omega

/-- Witness for C2 at a concrete symmetric run (logits `[1, -1]`, target
`1/2`, initial scores `[1/2, 1/2]`): the first computed delta is already
`0 ≤ tolerance`, yet the loop exits only at counter 5. -/
theorem c2_witness :
    5 ≤ 5 ∧ (∀ f, f ≤ 5 → calibrate [1, -1] [(1 : ℝ) / 2, 1 / 2] (1 / 2) f = none) ∧
      (∀ k, 5 ≤ k → k < 5 →
        0.01 < |mean (iterStep [1, -1] (1 / 2) [(1 : ℝ) / 2, 1 / 2] (k - 1)) -
          mean (iterStep [1, -1] (1 / 2) [(1 : ℝ) / 2, 1 / 2] k)|) ∧
      |mean (iterStep [1, -1] (1 / 2) [(1 : ℝ) / 2, 1 / 2] (5 - 1)) -
        mean (iterStep [1, -1] (1 / 2) [(1 : ℝ) / 2, 1 / 2] 5)| ≤ 0.01 :=
  c2_loop_structure _ _ _ _ _ _ runSym

/-- Claim C1 (amended): when the calibration loop exits under the
convergence branch, the guarantee its exit condition provides is that the
mean of the returned scores is within `tolerance` of the mean of the
previous pass's scores — not of `target_prevalence`. -/
theorem c1_convergence_guarantee (l init : List ℝ) (ds : ℝ) (fuel : ℕ)
    (s : List ℝ) (n : ℕ) (h : calibrate l init ds fuel = some (s, n)) :
    s = iterStep l ds init n ∧
      |mean (iterStep l ds init (n - 1)) - mean s| ≤ 0.01 := by
  obtain ⟨-, -, hs, hlast, -⟩ := calibrate_spec l init ds fuel s n h
  exact ⟨hs, by rw [hs]; exact hlast⟩

/-- Counterexample to C1 as stated: with doublet ratio `1`
(`target_prevalence = 1/2`), a single cell with doublet logit `10` and
initial score `1/2`, the loop exits under the convergence branch at
counter 5 with score `sigmoid 50`, whose mean is at distance about `1/2`
from the target prevalence — far beyond the tolerance `0.01`. -/
theorem c1_counterexample :
    calibrate [10] [(1 : ℝ) / 2] (d_s 1) 6 = some ([sigmoid 50], 5) ∧
      ¬ |mean [sigmoid 50] - d_s 1| ≤ 0.01 := by
  have hd : d_s 1 = 1 / 2 := by norm_num [d_s]
  constructor
  · rw [hd]; exact runDiv
  · rw [hd, mean_single]
    have hbig := sigmoid_fifty_big
    have hlt := sigmoid_lt_one 50
    intro hcon
    rw [abs_of_nonneg (by linarith)] at hcon
    norm_num at hcon
    linarith

/-- Witness for the amended C1 at the symmetric run. -/
theorem c1_witness :
    [sigmoid 1, sigmoid (-1)] =
        iterStep [1, -1] (1 / 2) [(1 : ℝ) / 2, 1 / 2] 5 ∧
      |mean (iterStep [1, -1] (1 / 2) [(1 : ℝ) / 2, 1 / 2] (5 - 1)) -
        mean [sigmoid 1, sigmoid (-1)]| ≤ 0.01 :=
  c1_convergence_guarantee _ _ _ _ _ _ runSym

/-- Claim C7: every score the calibration loop produces is a sigmoid
value, hence lies in `[0, 1]`: this holds for the working scores after
every pass of the loop body, and for the returned array of every
normally exiting run. -/
theorem c7_range_invariant (l init : List ℝ) (ds : ℝ) (fuel : ℕ) (s : List ℝ)
    (n : ℕ) (h : calibrate l init ds fuel = some (s, n)) :
    (∀ x ∈ s, 0 ≤ x ∧ x ≤ 1) ∧
      ∀ k, ∀ x ∈ iterStep l ds init (k + 1), 0 ≤ x ∧ x ≤ 1 := by
  have hstep : ∀ w, ∀ x ∈ calibStep l ds w, 0 ≤ x ∧ x ≤ 1 := by
    intro w x hx
    unfold calibStep at hx
    rw [List.mem_map] at hx
    obtain ⟨L, -, rfl⟩ := hx
    exact ⟨(sigmoid_pos _).le, (sigmoid_lt_one _).le⟩
  obtain ⟨h5, -, hs, -, -⟩ := calibrate_spec l init ds fuel s n h
  constructor
  · intro x hx
    obtain ⟨m, hm⟩ : ∃ m, n = m + 1 := ⟨n - 1, by omega⟩
    rw [hs, hm, iterStep_succ] at hx
    exact hstep _ x hx
  · intro k x hx
    rw [iterStep_succ] at hx
    exact hstep _ x hx

/-- Witness for C7 at the symmetric run. -/
theorem c7_witness :
    (∀ x ∈ [sigmoid 1, sigmoid (-1)], 0 ≤ x ∧ x ≤ 1) ∧
      ∀ k, ∀ x ∈ iterStep [1, -1] (1 / 2) [(1 : ℝ) / 2, 1 / 2] (k + 1),
        0 ≤ x ∧ x ≤ 1 :=
  c7_range_invariant _ _ _ _ _ _ runSym

/-- Claim C8: within one pass of the loop the fixed bias is added to every
logit and the sigmoid is strictly monotone, so a cell with a strictly
larger input logit gets a strictly larger updated score — in every pass,
for any working scores — and consequently the scores returned by a
normally exiting run are ordered exactly as the input logits. -/
theorem c8_monotone_order (l init : List ℝ) (ds : ℝ) (fuel : ℕ) (s : List ℝ)
    (n : ℕ) (i j : ℕ) (hi : i < l.length) (hj : j < l.length)
    (hij : l.getD j 0 < l.getD i 0)
    (h : calibrate l init ds fuel = some (s, n)) :
    (∀ w : List ℝ, (calibStep l ds w).getD j 0 < (calibStep l ds w).getD i 0) ∧
      s.getD j 0 < s.getD i 0 := by
  have hstep : ∀ w : List ℝ,
      (calibStep l ds w).getD j 0 < (calibStep l ds w).getD i 0 := by
    intro w
    unfold calibStep
    have hi' : i < (l.map fun L => sigmoid (L +
        (Real.log (mean w / (1 - mean w)) - Real.log (ds / (1 - ds))))).length := by
      rwa [List.length_map]
    have hj' : j < (l.map fun L => sigmoid (L +
        (Real.log (mean w / (1 - mean w)) - Real.log (ds / (1 - ds))))).length := by
      rwa [List.length_map]
    rw [List.getD_eq_getElem _ _ hi', List.getD_eq_getElem _ _ hj',
      List.getElem_map, List.getElem_map]
    apply sigmoid_lt_sigmoid
    have hgi : l[i] = l.getD i 0 := (List.getD_eq_getElem l 0 hi).symm
    have hgj : l[j] = l.getD j 0 := (List.getD_eq_getElem l 0 hj).symm
    rw [hgi, hgj]
    linarith
  obtain ⟨h5, -, hs, -, -⟩ := calibrate_spec l init ds fuel s n h
  refine ⟨hstep, ?_⟩
  obtain ⟨m, hm⟩ : ∃ m, n = m + 1 := ⟨n - 1, by omega⟩
  rw [hs, hm, iterStep_succ]
  exact hstep _

/-- Witness for C8 at the symmetric run, comparing its two cells. -/
theorem c8_witness :
    (∀ w : List ℝ, (calibStep [1, -1] (1 / 2) w).getD 1 0 <
        (calibStep [1, -1] (1 / 2) w).getD 0 0) ∧
      ([sigmoid 1, sigmoid (-1)] : List ℝ).getD 1 0 <
        ([sigmoid 1, sigmoid (-1)] : List ℝ).getD 0 0 :=
  c8_monotone_order [1, -1] [(1 : ℝ) / 2, 1 / 2] (1 / 2) 6
    [sigmoid 1, sigmoid (-1)] 5 0 1 (by norm_num) (by norm_num)
    (by norm_num [List.getD]) runSym

/-! ## Claim theorems: threshold selector -/

/-- Maximum of the first `k` entries of an ascending-sorted list is its
entry at index `k - 1`: this is why `np.max(solo_scores[idx[:k]])` with
`idx = np.argpartition(solo_scores, k)` is the `k`-th smallest score. -/
theorem take_maximum_sorted (S : List ℝ) (k : ℕ) (hs : S.Sorted (· ≤ ·))
    (h1 : 1 ≤ k) (h2 : k ≤ S.length) :
    (S.take k).maximum = (S.getD (k - 1) 0 : ℝ) := by
  have hk1 : k - 1 < S.length := by omega
  rw [List.getD_eq_getElem S 0 hk1, List.maximum_eq_coe_iff]
  constructor
  · have hlt : k - 1 < (S.take k).length := by
      rw [List.length_take]; omega
    have hm := List.getElem_mem hlt
    rwa [List.getElem_take] at hm
  · intro a ha
    obtain ⟨i, hilen, rfl⟩ := List.getElem_of_mem ha
    rw [List.getElem_take]
    have hik : i < k := by
      have := hilen; rw [List.length_take] at this; omega
    have hiS : i < S.length := by omega
    have hfle : (⟨i, hiS⟩ : Fin S.length) ≤ ⟨k - 1, hk1⟩ := by
      simp only [Fin.mk_le_mk]; omega
    have hrel := hs.rel_get_of_le hfle
    simpa using hrel

/-- Claim C5: with `0 < expected < n`, the selector succeeds; the
threshold is the `k`-th smallest score for `k = n - expected`; each call
is `score > threshold`; the number of `true` calls never exceeds
`expected`; when the scores are distinct it is exactly `expected`; any
called cell scores strictly above any uncalled cell; and a score equal to
the threshold is called `false`. -/
theorem c5_threshold_selection (scores : List ℝ) (e : ℕ) (t : ℝ)
    (calls : List Bool) (he : 0 < e) (hen : e < scores.length)
    (h : selectCalls scores e = Except.ok (t, calls)) :
    t = (scores.insertionSort (· ≤ ·)).getD (scores.length - e - 1) 0 ∧
      calls = scores.map (fun s => decide (t < s)) ∧
      scores.countP (fun s => decide (t < s)) ≤ e ∧
      (scores.Nodup → scores.countP (fun s => decide (t < s)) = e) ∧
      (∀ i j, i < scores.length → j < scores.length →
        calls.getD i false = true → calls.getD j false = false →
        scores.getD j 0 < scores.getD i 0) ∧
      (∀ i, i < scores.length → scores.getD i 0 = t →
        calls.getD i false = false) := by
  have hS : (scores.insertionSort (· ≤ ·)).Sorted (· ≤ ·) :=
    List.sorted_insertionSort _ _
  have hperm : List.Perm (scores.insertionSort (· ≤ ·)) scores :=
    List.perm_insertionSort _ _
  have hlenS : (scores.insertionSort (· ≤ ·)).length = scores.length :=
    List.length_insertionSort _ _
  simp only [selectCalls] at h
  rw [if_pos (by omega), if_pos (by omega)] at h
  have hk : ((scores.length : ℤ) - (e : ℤ)).toNat = scores.length - e := by omega
  rw [hk] at h
  have hmax : ((scores.insertionSort (· ≤ ·)).take (scores.length - e)).maximum =
      ((scores.insertionSort (· ≤ ·)).getD (scores.length - e - 1) 0 : ℝ) := by
    have := take_maximum_sorted (scores.insertionSort (· ≤ ·))
      (scores.length - e) hS (by omega) (by omega)
    simpa using this
  rw [hmax, WithBot.unbot'_coe] at h
  have hpair := Except.ok.inj h
  have ht : (scores.insertionSort (· ≤ ·)).getD (scores.length - e - 1) 0 = t :=
    congrArg Prod.fst hpair
  have hcalls : scores.map
      (fun s => decide ((scores.insertionSort (· ≤ ·)).getD
        (scores.length - e - 1) 0 < s)) = calls :=
    congrArg Prod.snd hpair
  rw [ht] at hcalls
  have hTle : ∀ a ∈ (scores.insertionSort (· ≤ ·)).take (scores.length - e),
      a ≤ t := by
    intro a ha
    exact List.le_maximum_of_mem ha (by rw [hmax, ht])
  have hcount0 :
      ((scores.insertionSort (· ≤ ·)).take (scores.length - e)).countP
        (fun s => decide (t < s)) = 0 := by
    rw [List.countP_eq_zero]
    intro a ha
    simpa using not_lt.mpr (hTle a ha)
  have hsplit : scores.countP (fun s => decide (t < s)) =
      ((scores.insertionSort (· ≤ ·)).take (scores.length - e)).countP
          (fun s => decide (t < s)) +
        ((scores.insertionSort (· ≤ ·)).drop (scores.length - e)).countP
          (fun s => decide (t < s)) := by
    rw [← List.countP_append, List.take_append_drop]
    exact (hperm.countP_eq _).symm
  have hdroplen : ((scores.insertionSort (· ≤ ·)).drop
      (scores.length - e)).length = e := by
    rw [List.length_drop, hlenS]; omega
  refine ⟨ht.symm, hcalls.symm, ?_, ?_, ?_, ?_⟩
  · rw [hsplit, hcount0, zero_add]
    exact le_trans (List.countP_le_length _) (le_of_eq hdroplen)
  · intro hnd
    have hndS : (scores.insertionSort (· ≤ ·)).Nodup := hperm.nodup_iff.mpr hnd
    have hfull : ∀ a ∈ (scores.insertionSort (· ≤ ·)).drop (scores.length - e),
        decide (t < a) = true := by
      intro a ha
      obtain ⟨i, hilen, rfl⟩ := List.getElem_of_mem ha
      rw [List.getElem_drop]
      have hiS : scores.length - e + i < (scores.insertionSort (· ≤ ·)).length := by
        have := hilen; rw [List.length_drop] at this; omega
      have hk1 : scores.length - e - 1 < (scores.insertionSort (· ≤ ·)).length := by
        omega
      have htv : t = (scores.insertionSort (· ≤ ·))[scores.length - e - 1] := by
        rw [← ht, List.getD_eq_getElem _ _ hk1]
      have hfle : (⟨scores.length - e - 1, hk1⟩ :
          Fin ((scores.insertionSort (· ≤ ·)).length)) ≤
          ⟨scores.length - e + i, hiS⟩ := by
        simp only [Fin.mk_le_mk]; omega
      have hle := hS.rel_get_of_le hfle
      simp only [List.get_eq_getElem] at hle
      have hne : (scores.insertionSort (· ≤ ·))[scores.length - e - 1] ≠
          (scores.insertionSort (· ≤ ·))[scores.length - e + i] := by
        simp only [ne_eq, hndS.getElem_inj_iff]
        omega
      rw [htv]
      simpa using lt_of_le_of_ne hle hne
    rw [hsplit, hcount0, zero_add]
    rw [List.countP_eq_length.mpr hfull, hdroplen]
  · intro i j hi hj hti htj
    have hmi : i < (scores.map (fun s => decide (t < s))).length := by
      rwa [List.length_map]
    have hmj : j < (scores.map (fun s => decide (t < s))).length := by
      rwa [List.length_map]
    rw [← hcalls, List.getD_eq_getElem _ _ hmi, List.getElem_map] at hti
    rw [← hcalls, List.getD_eq_getElem _ _ hmj, List.getElem_map] at htj
    have h1 : t < scores[i] := of_decide_eq_true hti
    have h2 : ¬ t < scores[j] := of_decide_eq_false htj
    rw [List.getD_eq_getElem _ _ hi, List.getD_eq_getElem _ _ hj]
    have := not_lt.mp h2
    linarith
  · intro i hi hsi
    have hmi : i < (scores.map (fun s => decide (t < s))).length := by
      rwa [List.length_map]
    rw [← hcalls, List.getD_eq_getElem _ _ hmi, List.getElem_map]
    rw [List.getD_eq_getElem _ _ hi] at hsi
    rw [hsi]
    exact decide_eq_false (lt_irrefl t)

/-- Concrete evaluation of the selector: scores `[0.9, 0.1]`, one
expected doublet: `k = 1`, the sorted order is `[0.1, 0.9]`, the
threshold is `0.1`, and only the `0.9` cell is called. -/
theorem selectCallsEx :
    selectCalls [(0.9 : ℝ), 0.1] 1 = Except.ok (0.1, [true, false]) := by
  have hsort : ([(0.9 : ℝ), 0.1]).insertionSort (· ≤ ·) = [0.1, 0.9] := by
    simp only [List.insertionSort, List.orderedInsert]
    rw [if_neg (by norm_num)]
  simp only [selectCalls, hsort]
  rw [if_pos (by norm_num), if_pos (by norm_num)]
  norm_num

/-- Witness for C5 at the concrete selector run. -/
theorem c5_witness :
    (0.1 : ℝ) = (([(0.9 : ℝ), 0.1]).insertionSort (· ≤ ·)).getD
        (([(0.9 : ℝ), 0.1]).length - 1 - 1) 0 ∧
      [true, false] = ([(0.9 : ℝ), 0.1]).map (fun s => decide ((0.1 : ℝ) < s)) ∧
      ([(0.9 : ℝ), 0.1]).countP (fun s => decide ((0.1 : ℝ) < s)) ≤ 1 ∧
      (([(0.9 : ℝ), 0.1]).Nodup →
        ([(0.9 : ℝ), 0.1]).countP (fun s => decide ((0.1 : ℝ) < s)) = 1) ∧
      (∀ i j, i < ([(0.9 : ℝ), 0.1]).length → j < ([(0.9 : ℝ), 0.1]).length →
        ([true, false]).getD i false = true → ([true, false]).getD j false = false →
        ([(0.9 : ℝ), 0.1]).getD j 0 < ([(0.9 : ℝ), 0.1]).getD i 0) ∧
      (∀ i, i < ([(0.9 : ℝ), 0.1]).length →
        ([(0.9 : ℝ), 0.1]).getD i 0 = (0.1 : ℝ) →
        ([true, false]).getD i false = false) :=
  c5_threshold_selection [(0.9 : ℝ), 0.1] 1 0.1 [true, false]
    (by norm_num) (by norm_num) selectCallsEx

/-- Claim C6: when `expected_number_of_doublets` is at least the number
of scores, `k = n - expected ≤ 0` and the `assert k > 0` at line 283
fails before any call array is produced. -/
theorem c6_assert_failure (scores : List ℝ) (e : ℕ) (h : scores.length ≤ e) :
    selectCalls scores e = Except.error ThreshErr.assertFail := by
  simp only [selectCalls]
  rw [if_neg (by omega)]

/-- Witness for C6: two scores, two expected doublets. -/
theorem c6_witness :
    selectCalls [(0.9 : ℝ), 0.1] 2 = Except.error ThreshErr.assertFail :=
  c6_assert_failure [(0.9 : ℝ), 0.1] 2 (by norm_num)

/-- Claim C10: with a non-empty score list and `expected = 0`, the
`assert k > 0` passes (`k = n`), but `np.argpartition(solo_scores, n)`
is out of bounds for an array of length `n` (NumPy accepts
`kth ≤ n - 1`), so the run aborts without returning a call array. -/
theorem c10_zero_expected_aborts (scores : List ℝ) (h : 1 ≤ scores.length) :
    selectCalls scores 0 = Except.error ThreshErr.argpartitionOOB := by
  simp only [selectCalls]
  rw [if_pos (by omega), if_neg (by omega)]

/-- Witness for C10: a single score with zero expected doublets. -/
theorem c10_witness :
    selectCalls [(0.7 : ℝ)] 0 = Except.error ThreshErr.argpartitionOOB :=
  c10_zero_expected_aborts [(0.7 : ℝ)] (by norm_num)

/-! ## Claim theorems: pipeline glue and per-cell class usage -/

/-- Concrete evaluation of the default-threshold pipeline on a
two-cell population of which one is real (`num_cells = 1`): logit pairs
`(0, 0)` and `(5, 5)`, doublet ratio `1`.  The initial real-cell score is
`softmax0 (0, 0) = 1/2`, calibration fixes it at `1/2`, and the single
resulting call is `1/2 > 1/2 = false`. -/
theorem runPipeline :
    soloCalls [((0 : ℝ), (0 : ℝ)), ((5 : ℝ), (5 : ℝ))] 1 1 6 = some [false] := by
  have h0 : softmaxRow0 ((0 : ℝ), (0 : ℝ)) = 1 / 2 := by
    unfold softmaxRow0
    norm_num [Real.exp_zero]
  have hd : d_s 1 = 1 / 2 := by norm_num [d_s]
  simp only [soloCalls, List.map_cons, List.map_nil, List.take_succ_cons,
    List.take_zero, h0, hd]
  rw [runZero]
  simp only [Option.map_some']
  norm_num

/-- Counterexample to C9 as stated: on a population of 2 cells
(1 real + 1 simulated) the produced call array `[false]` has one entry
per real cell only — its length 1 differs from the population size 2,
and its synthetic slice `[num_cells:]` is empty even though
`N_sim = 1 > 0`. -/
theorem c9_counterexample :
    soloCalls [((0 : ℝ), (0 : ℝ)), ((5 : ℝ), (5 : ℝ))] 1 1 6 = some [false] ∧
      ([false] : List Bool).length ≠
        ([((0 : ℝ), (0 : ℝ)), ((5 : ℝ), (5 : ℝ))] : List (ℝ × ℝ)).length ∧
      ([false] : List Bool).drop 1 = [] :=
  ⟨runPipeline, by norm_num, rfl⟩

/-- Claim C9 (amended): the call array produced on the default-threshold
path has one entry per real cell (`num_cells`), because the scores fed to
thresholding are the calibrated scores of the real-cell slice only; hence
its `[:num_cells]` slice is the whole array and its `[num_cells:]` slice
is always empty, whatever `N_sim` is. -/
theorem c9_real_only_calls (preds : List (ℝ × ℝ)) (num_cells : ℕ) (ratio : ℝ)
    (fuel : ℕ) (calls : List Bool) (hn : num_cells ≤ preds.length)
    (h : soloCalls preds num_cells ratio fuel = some calls) :
    calls.length = num_cells ∧ calls.drop num_cells = [] := by
  simp only [soloCalls] at h
  rw [Option.map_eq_some'] at h
  obtain ⟨⟨s, n⟩, hrun, hcalls⟩ := h
  obtain ⟨h5, -, hs, -, -⟩ := calibrate_spec _ _ _ _ _ _ hrun
  obtain ⟨m, hm⟩ : ∃ m, n = m + 1 := ⟨n - 1, by omega⟩
  have hslen : s.length = num_cells := by
    rw [hs, hm, iterStep_succ]
    unfold calibStep
    rw [List.length_map, List.length_take, List.length_map]
    exact inf_eq_left.mpr hn
  have hlen : calls.length = num_cells := by
    rw [← hcalls, List.length_map]
    exact hslen
  refine ⟨hlen, ?_⟩
  rw [List.drop_eq_nil_iff, hlen]

/-- Witness for the amended C9 at the concrete pipeline run. -/
theorem c9_witness :
    ([false] : List Bool).length = 1 ∧ ([false] : List Bool).drop 1 = [] :=
  c9_real_only_calls [((0 : ℝ), (0 : ℝ)), ((5 : ℝ), (5 : ℝ))] 1 1 6 [false]
    (by norm_num) runPipeline

/-- Claim C3 as the code behaves: line 263 applies `np.log` to the raw
observed mean with no clamp, so at an observed mean of exactly `0` or
exactly `1` the bias term is non-finite (here: `none` under
float-finiteness tracking), for the default doublet ratio 2. -/
theorem c3_bias_nonfinite :
    biasF 0 (d_s 2) = none ∧ biasF 1 (d_s 2) = none := by
  constructor <;> simp [biasF, logOddsF]

/-- Claim C4 as the code behaves: the initial score stored by line 238 is
the softmax component of column 0, while the logit used inside the
calibration update (line 244) is column 1; already at the logit pair
`(0, 1)` the softmax component of column 0 differs from that of the class
actually used in the update, so the two arrays do not refer to the same
class. -/
theorem c4_class_mismatch :
    softmaxRow0 ((0 : ℝ), (1 : ℝ)) < softmaxRow1 ((0 : ℝ), (1 : ℝ)) := by
  unfold softmaxRow0 softmaxRow1
  have hpos : (0 : ℝ) < Real.exp 0 + Real.exp 1 := by positivity
  have h01 : Real.exp 0 < Real.exp 1 := Real.exp_lt_exp.mpr (by norm_num)
  exact (div_lt_div_iff_of_pos_right hpos).mpr h01

end Solo

